import Mathlib

/-
Verification development for the UBI wear-leveling and consolidation engine
of this repository (drivers/mtd/ubi/wl.c, drivers/mtd/ubi/work.c,
drivers/mtd/ubi/consolidate.c).  Each C function relevant to the checked
properties is shallowly embedded as an executable Lean definition operating
on explicit state records; machine integers are modelled as Int (the C code
uses int and never relies on wraparound in the modelled paths).
-/

/-! ## Linux errno values used by the modelled code (as positive magnitudes) -/

def EINTR : Int := 4
def ENOMEM : Int := 12
def EAGAIN : Int := 11
def EBUSY : Int := 16
def eioCode : Int := 5
def ENODEV : Int := 19
def EROFS : Int := 30
def ENOSPC : Int := 28

/-! ## Work engine background thread (work.c)

The background thread loop of work.c:279-331 pops works and executes them;
the result of executing each work is what decides the failure bookkeeping,
so the loop is embedded as a recursion over the list of successive work
results (0 = success, nonzero = the error returned by the work function). -/

/-- Maximum number of consecutive background thread failures (work.c:11). -/
def WORK_MAX_FAILURES : Int := 32

/-- Outcome of a run of the background thread over a finite sequence of
work results: whether the read-only switch happened, the error that
shutdown_work attached to the drained pending works, and whether the
thread is still enabled afterwards (work.c:311-322). -/
structure ThreadOutcome where
  roMode : Bool
  drainErr : Option Int
  threadEnabled : Bool
deriving DecidableEq

/-- Embeds the failure bookkeeping of ubi_thread (work.c:279-331).  The
first argument is the current value of the local variable failures; the
list holds the results of the successive executed works.  On a failed work
the C code evaluates failures++ > WORK_MAX_FAILURES (comparing the value
before the increment) and, when that holds, calls shutdown_work with
-EROFS, switches to read-only mode and disables the thread. -/
def ubi_thread_run : Int → List Int → ThreadOutcome
  | _, [] => ⟨false, none, true⟩
  | failures, err :: rest =>
    if err ≠ 0 then
      if failures > WORK_MAX_FAILURES then ⟨true, some (-EROFS), false⟩
      else ubi_thread_run (failures + 1) rest
    else ubi_thread_run 0 rest

/-! ## Erase worker failure dispatch (wl.c:1086-1195)

The part of __erase_worker that runs after sync_erase returned a nonzero
error.  The model records which recovery action the code takes; the
reserve accounting of the bad-block path (wl.c:1144-1183) is tracked only
through the markedBad flag since no checked claim mentions it. -/

/-- Result of the error handling of __erase_worker: the erase work that got
re-enqueued, if any, as a pair of the PEB number and the torture flag of
the new work; whether the wear-leveling entry was destroyed; whether the
device was switched to read-only; whether the PEB was marked bad. -/
structure EraseFailOutcome where
  rescheduled : Option (Nat × Bool)
  entryDestroyed : Bool
  roMode : Bool
  markedBad : Bool
deriving DecidableEq

/-- The transient error test of wl.c:1114-1115. -/
def transientEraseErr (err : Int) : Bool :=
  err = -EINTR ∨ err = -ENOMEM ∨ err = -EAGAIN ∨ err = -EBUSY

/-- Embeds the failure branches of __erase_worker (wl.c:1112-1194) for a
PEB pnum whose failed erase work carried the flag failedTorture and whose
sync_erase call returned err (nonzero).  failedTorture is the torture flag
of the FAILED work: it was consumed by the sync_erase attempt and the
reschedule at wl.c:1119 passes the literal true instead.  allocOk tells
whether the ubi_alloc_work allocation inside schedule_erase succeeds;
badAllowed, bebRsvdPebs, availPebs and markBadOk parametrise the bad-block
path.  Returns the outcome and the value returned by __erase_worker. -/
def erase_worker_on_failure (pnum : Nat) (failedTorture : Bool) (err : Int)
    (allocOk badAllowed : Bool) (bebRsvdPebs availPebs : Int)
    (markBadOk : Bool) : EraseFailOutcome × Int :=
  if transientEraseErr err then
    -- wl.c:1114-1126: re-schedule the erasure; schedule_erase(ubi, e, true)
    if allocOk then (⟨some (pnum, true), false, false, false⟩, err)
    else (⟨none, true, true, false⟩, -ENOMEM)
  else if err ≠ -eioCode then
    -- wl.c:1128-1135: destroy the entry and switch to read-only
    (⟨none, true, true, false⟩, err)
  else if ¬ badAllowed then
    -- wl.c:1139-1142
    (⟨none, true, true, false⟩, err)
  else if bebRsvdPebs = 0 ∧ availPebs = 0 then
    -- wl.c:1144-1150: no reserved and no available PEB left
    (⟨none, true, true, false⟩, err)
  else if markBadOk then
    -- wl.c:1156-1185: PEB marked bad, reserve consumed, returns 0
    (⟨none, true, false, true⟩, 0)
  else
    -- wl.c:1157-1159: ubi_io_mark_bad failed, goto out_ro
    (⟨none, true, true, false⟩, err)

/-! ## Consolidation trigger (consolidate.c:382-409, 557-584) -/

/-- The fields of struct ubi_device read by the consolidation trigger. -/
structure ConsoTrigger where
  lebsPerCpeb : Int
  fullCount : Int
  freeCount : Int
  bebRsvdPebs : Int
  consolidationThreshold : Int
  dbgForceLebConsolidation : Bool
deriving DecidableEq

/-- Embeds consolidation_possible (consolidate.c:382-397).  The reserved
argument stands for the macro UBI_CONSO_RESERVED_PEBS, whose value lives
in ubi.h. -/
def consolidation_possible (reserved : Int) (c : ConsoTrigger) : Bool :=
  if c.lebsPerCpeb < 2 then false
  else if c.fullCount < c.lebsPerCpeb then false
  else if c.freeCount < reserved then false
  else true

/-- Embeds ubi_conso_consolidation_needed (consolidate.c:399-409).  The
dbgForceLebConsolidation field models the debugfs knob read through
ubi_dbg_force_leb_consolidation. -/
def ubi_conso_consolidation_needed (reserved : Int) (c : ConsoTrigger) : Bool :=
  if ¬ consolidation_possible reserved c then false
  else if c.dbgForceLebConsolidation then true
  else c.freeCount - c.bebRsvdPebs ≤ c.consolidationThreshold

/-- Embeds the consolidation_threshold initialisation of ubi_conso_init
(consolidate.c:562-566): (avail_pebs + rsvd_pebs) / 3, floored at
lebs_per_cpeb. -/
def conso_init_threshold (availPebs rsvdPebs lebsPerCpeb : Int) : Int :=
  let t := (availPebs + rsvdPebs) / 3
  if t < lebsPerCpeb then lebsPerCpeb else t

/-! ## Wear-leveling entry points ubi_wl_put_peb and ubi_wl_scrub_peb (wl.c)

The RB-trees keyed by (ec, pnum) and the protection queue are modelled at
the membership level as finite sets of PEB numbers, which is all these two
entry points inspect.  The erase works queued by ubi_schedule_work are
collected in the works list as (pnum, torture) pairs.  move_from / move_to
follow wl.c; the retry loops that wait for an in-flight move are modelled
by returning none (the sequential model cannot complete the move). -/

structure PutState where
  used : Finset Nat
  scrub : Finset Nat
  erroneous : Finset Nat
  pq : Finset Nat
  free : Finset Nat
  erroneousPebCount : Int
  moveFrom : Option Nat
  moveTo : Option Nat
  moveToPut : Bool
  roMode : Bool
  works : List (Nat × Bool)
  dbgChkGen : Bool
deriving DecidableEq

/-- Embeds prot_queue_del (wl.c:384-398).  The self_check_in_pq call
verifies membership in the protection queue when the generic debug checks
(ubi_dbg_chk_gen) are enabled and makes the function fail with -ENODEV on
a PEB that is not queued; with the checks disabled the C code would run
list_del on links that are not list links (the u union holds the RB-tree
node for an entry sitting in a tree), which has no faithful set-level
image, so the model simply drops the PEB from the queue. -/
def prot_queue_del (s : PutState) (pnum : Nat) : Option PutState :=
  if s.dbgChkGen ∧ pnum ∉ s.pq then none
  else some { s with pq := s.pq.erase pnum }

/-- Embeds ubi_wl_put_peb (wl.c:1225-1311).  torture is the callers flag;
allocOk tells whether ubi_alloc_erase_work succeeds.  Returns none when
the call blocks on move_mutex and retries forever in a sequential world
(pnum = move_from, wl.c:1241-1253); otherwise returns the new state and
the returned error code. -/
def ubi_wl_put_peb (s : PutState) (pnum : Nat) (torture : Bool)
    (allocOk : Bool) : Option (PutState × Int) :=
  if s.moveFrom = some pnum then none
  else if s.moveTo = some pnum then
    -- wl.c:1254-1269: flag the in-flight move target for erasure
    some ({ s with moveToPut := true }, 0)
  else
    let removed : Option (PutState × Bool) :=
      if pnum ∈ s.used then
        some ({ s with used := s.used.erase pnum }, torture)
      else if pnum ∈ s.scrub then
        some ({ s with scrub := s.scrub.erase pnum }, torture)
      else if pnum ∈ s.erroneous then
        -- wl.c:1277-1283: erroneous PEBs are always tortured
        some ({ s with erroneous := s.erroneous.erase pnum,
                       erroneousPebCount := s.erroneousPebCount - 1 }, true)
      else if pnum ∈ s.pq then
        some ({ s with pq := s.pq.erase pnum }, torture)
      else none
    match removed with
    | none =>
      -- wl.c:1285-1292: prot_queue_del failed, switch to read-only
      some ({ s with roMode := true }, -ENODEV)
    | some (s1, tort) =>
      if allocOk then
        some ({ s1 with works := s1.works ++ [(pnum, tort)] }, 0)
      else
        -- wl.c:1297-1306: allocation failed, re-insert into the used tree
        some ({ s1 with used := insert pnum s1.used }, -ENOMEM)

/-- Embeds ubi_wl_scrub_peb (wl.c:1323-1374).  Returns none when pnum is
the in-flight move target (the C code yields and retries until the move
completes, wl.c:1338-1349).  The trailing ensure_wear_leveling call only
schedules the WL work; its return value is passed through as 0 here since
no modelled state is read from it. -/
def ubi_wl_scrub_peb (s : PutState) (pnum : Nat) : Option (PutState × Int) :=
  if s.moveFrom = some pnum ∨ pnum ∈ s.scrub ∨ pnum ∈ s.erroneous then
    some (s, 0)
  else if s.moveTo = some pnum then none
  else if pnum ∈ s.used then
    some ({ s with used := s.used.erase pnum,
                   scrub := insert pnum s.scrub }, 0)
  else
    match prot_queue_del s pnum with
    | none =>
      -- wl.c:1357-1363: PEB not found, switch to read-only
      some ({ s with roMode := true }, -ENODEV)
    | some s1 =>
      some ({ s1 with scrub := insert pnum s1.scrub }, 0)

/-! ## Wear-leveling worker, normal path (wl.c:769-793, 999-1004)

The below-threshold cancellation of the normal (non-scrub, non-anchor)
wear-leveling path.  Entries here carry the erase counter, as pairs
(ec, pnum). -/

/-- CONFIG_MTD_UBI_WL_THRESHOLD (wl.c:115); 4096 is the default
configuration value named by the specification. -/
def UBI_WL_THRESHOLD : Int := 4096

/-- WL_FREE_MAX_DIFF (wl.c:128). -/
def WL_FREE_MAX_DIFF : Int := 2 * UBI_WL_THRESHOLD

structure MoveState where
  used : Finset (Int × Nat)
  scrub : Finset (Int × Nat)
  free : Finset (Int × Nat)
  freeCount : Int
  wlScheduled : Bool
deriving DecidableEq

/-- Embeds the normal wear-leveling path of wear_leveling_worker
(wl.c:769-793) from the point where the source entry e1 = rb_first(used)
and the target entry e2 returned by get_peb_for_wl are fixed.
get_peb_for_wl (wl.c:1864-1882) has already removed e2 from the free tree
and decremented free_count; if the erase counters differ by less than
UBI_WL_THRESHOLD the target is handed back to the free tree, free_count is
re-incremented and wl_scheduled is cleared on the out_cancel path
(wl.c:786-788, 999-1001).  The returned Bool tells whether the worker goes
on to perform the copy. -/
def wear_leveling_normal_step (s : MoveState) (e1 e2 : Int × Nat) :
    MoveState × Bool :=
  let s1 : MoveState :=
    { s with free := s.free.erase e2, freeCount := s.freeCount - 1 }
  if ¬ (e2.1 - e1.1 ≥ UBI_WL_THRESHOLD) then
    ({ s1 with free := insert e2 s1.free, freeCount := s1.freeCount + 1,
               wlScheduled := false }, false)
  else
    ({ s1 with used := s1.used.erase e1 }, true)

/-! ## Theorems about the background thread failure counter (claim C5) -/

/-- Characterisation of ubi_thread_run on an all-failing result sequence:
starting from a failure counter f between 0 and 33, the read-only shutdown
happens exactly when f plus the number of failures reaches 34 (the C check
failures++ > WORK_MAX_FAILURES compares the pre-increment value against
32). -/
theorem ubi_thread_run_char (errs : List Int) : ∀ f : Int,
    (∀ e ∈ errs, e ≠ 0) → 0 ≤ f → f ≤ 33 →
    ubi_thread_run f errs =
      if 34 ≤ f + errs.length then ⟨true, some (-EROFS), false⟩
      else ⟨false, none, true⟩ := by
  induction errs with
  | nil =>
    intro f _ h0 h33
    simp only [ubi_thread_run, List.length_nil]
    rw [if_neg (by omega)]
  | cons e rest ih =>
    intro f hnz h0 h33
    have he : e ≠ 0 := hnz e (List.mem_cons_self e rest)
    simp only [ubi_thread_run, if_pos he]
    by_cases hf : f > WORK_MAX_FAILURES
    · rw [if_pos hf, if_pos (by simp only [List.length_cons]; push_cast; unfold WORK_MAX_FAILURES at hf; omega)]
    · rw [if_neg hf]
      rw [ih (f + 1) (fun x hx => hnz x (List.mem_cons_of_mem e hx))
            (by omega) (by unfold WORK_MAX_FAILURES at hf; omega)]
      simp only [List.length_cons]
      by_cases hc : 34 ≤ f + 1 + (rest.length : Int)
      · rw [if_pos hc, if_pos (by push_cast; omega)]
      · rw [if_neg hc, if_neg (by push_cast; omega)]

/-- C5 counterexample: 32 consecutive work failures (starting from a fresh
failure counter) do NOT drain the pending works and do NOT set the device
read-only, contradicting the claim that WORK_MAX_FAILURES = 32 consecutive
failures trigger the read-only shutdown. -/
theorem thread_32_failures_no_shutdown :
    ubi_thread_run 0 (List.replicate 32 (-eioCode)) = ⟨false, none, true⟩ := by
  decide

/-- C5 (amended): the background thread drains all pending works with
-EROFS, switches to read-only mode and disables itself exactly when works
fail 34 consecutive times, the consecutive-failure count resetting on
every successful work; 32 or 33 consecutive failures do not trigger it. -/
theorem thread_shutdown_iff_34_failures (errs : List Int)
    (hnz : ∀ e ∈ errs, e ≠ 0) :
    ubi_thread_run 0 errs = ⟨true, some (-EROFS), false⟩ ↔
      34 ≤ errs.length := by
  rw [ubi_thread_run_char errs 0 hnz le_rfl (by norm_num)]
  by_cases hc : 34 ≤ (0 : Int) + errs.length
  · rw [if_pos hc]; simp; omega
  · rw [if_neg hc]; simp only [ThreadOutcome.mk.injEq]; simp; omega

/-- C5 witness: a concrete run of 34 consecutive failures drains with
-EROFS and disables the thread. -/
theorem thread_shutdown_iff_34_failures_witness :
    ubi_thread_run 0 (List.replicate 34 (-eioCode)) =
      ⟨true, some (-EROFS), false⟩ :=
  (thread_shutdown_iff_34_failures (List.replicate 34 (-eioCode))
    (by decide)).mpr (by decide)

/-! ## Theorems about the transient erase failure retry (claim C7) -/

/-- C7 counterexample: an erase work for PEB 9 carrying torture = false
fails with -EINTR; the rescheduled work carries torture = true, not the
torture flag of the failed work (wl.c:1119 passes the literal true to
schedule_erase). -/
theorem erase_transient_retry_counterexample :
    (erase_worker_on_failure 9 false (-EINTR) true true 1 1 true).1.rescheduled
        = some (9, true) ∧
    some ((9 : Nat), true) ≠ some ((9 : Nat), false) := by
  decide

/-- C7 (amended): when an erase work fails with a transient error (-EINTR,
-ENOMEM, -EAGAIN or -EBUSY) and the allocation of the replacement work
succeeds, a new erase work for the same PEB is enqueued with the torture
flag set unconditionally to true (regardless of the failed works flag),
the entry is not destroyed and the transient error is returned; if the
allocation fails, the entry IS destroyed and the device goes read-only. -/
theorem erase_transient_retry (pnum : Nat) (ft : Bool) (err : Int)
    (badAllowed : Bool) (beb avail : Int) (mb : Bool)
    (htrans : transientEraseErr err = true) :
    erase_worker_on_failure pnum ft err true badAllowed beb avail mb
      = (⟨some (pnum, true), false, false, false⟩, err) := by
  unfold erase_worker_on_failure
  rw [if_pos (by simp [htrans]), if_pos rfl]

/-- C7 witness: a concrete transient failure (-EAGAIN) on PEB 3. -/
theorem erase_transient_retry_witness :
    erase_worker_on_failure 3 true (-EAGAIN) true true 0 0 true
      = (⟨some (3, true), false, false, false⟩, -EAGAIN) :=
  erase_transient_retry 3 true (-EAGAIN) true 0 0 true (by decide)

/-! ## Theorems about the consolidation trigger (claim C8) -/

/-- C8: with the debugfs force knob off, ubi_conso_consolidation_needed
holds exactly when lebs_per_cpeb is at least 2, full_count is at least
lebs_per_cpeb, free_count is at least the reserved-PEB count, and
free_count - beb_rsvd_pebs is at most consolidation_threshold; and
ubi_conso_init initialises the threshold to (avail_pebs + rsvd_pebs) / 3
floored at lebs_per_cpeb. -/
theorem consolidation_needed_iff (reserved : Int) (c : ConsoTrigger)
    (a r n : Int) (hdbg : c.dbgForceLebConsolidation = false) :
    (ubi_conso_consolidation_needed reserved c = true ↔
      (2 ≤ c.lebsPerCpeb ∧ c.lebsPerCpeb ≤ c.fullCount ∧
       reserved ≤ c.freeCount ∧
       c.freeCount - c.bebRsvdPebs ≤ c.consolidationThreshold)) ∧
    conso_init_threshold a r n = max ((a + r) / 3) n := by
  constructor
  · unfold ubi_conso_consolidation_needed consolidation_possible
    rw [hdbg]
    split_ifs <;> simp_all
  · rw [show conso_init_threshold a r n
          = if (a + r) / 3 < n then n else (a + r) / 3 from rfl]
    by_cases h : (a + r) / 3 < n
    · rw [if_pos h, max_eq_right (le_of_lt h)]
    · rw [if_neg h, max_eq_left (le_of_not_lt h)]

/-- C8 witness: a concrete configuration where the trigger fires. -/
theorem consolidation_needed_iff_witness :
    (ubi_conso_consolidation_needed 2 ⟨4, 5, 3, 1, 6, false⟩ = true ↔
      (2 ≤ (4 : Int) ∧ (4 : Int) ≤ 5 ∧ (2 : Int) ≤ 3 ∧
       (3 : Int) - 1 ≤ 6)) ∧
    conso_init_threshold 10 5 2 = max (((10 : Int) + 5) / 3) 2 :=
  consolidation_needed_iff 2 ⟨4, 5, 3, 1, 6, false⟩ 10 5 2 rfl

/-! ## Theorems about the below-threshold move cancellation (claim C9) -/

/-- C9: on the normal (non-scrub, non-anchor) wear-leveling path, when the
selected targets erase counter minus the sources erase counter is below
UBI_WL_THRESHOLD the move is cancelled: the target entry is returned to
the free tree (with free_count re-incremented, so the free tree and
free_count end up exactly as before the worker took the target), the
source entry stays in the used tree, wl_scheduled is cleared and no copy
is performed. -/
theorem wl_below_threshold_cancel (s : MoveState) (e1 e2 : Int × Nat)
    (hfree : e2 ∈ s.free) (hdiff : e2.1 - e1.1 < UBI_WL_THRESHOLD) :
    (wear_leveling_normal_step s e1 e2).1.free = s.free ∧
    (wear_leveling_normal_step s e1 e2).1.freeCount = s.freeCount ∧
    (wear_leveling_normal_step s e1 e2).1.used = s.used ∧
    (wear_leveling_normal_step s e1 e2).1.scrub = s.scrub ∧
    (wear_leveling_normal_step s e1 e2).1.wlScheduled = false ∧
    (wear_leveling_normal_step s e1 e2).2 = false := by
  unfold wear_leveling_normal_step
  rw [if_pos (by omega)]
  refine ⟨Finset.insert_erase hfree, ?_, rfl, rfl, rfl, rfl⟩
  show s.freeCount - 1 + 1 = s.freeCount
  omega

/-- C9 witness: a concrete state with one used entry of EC 0 and one free
entry of EC 10 (difference 10 < 4096); the cancellation leaves the state
unchanged except for clearing wl_scheduled. -/
theorem wl_below_threshold_cancel_witness :
    ((wear_leveling_normal_step ⟨{(0, 1)}, ∅, {(10, 2)}, 1, true⟩
        (0, 1) (10, 2)).1.free = {(10, 2)} ∧
     (wear_leveling_normal_step ⟨{(0, 1)}, ∅, {(10, 2)}, 1, true⟩
        (0, 1) (10, 2)).1.freeCount = 1 ∧
     (wear_leveling_normal_step ⟨{(0, 1)}, ∅, {(10, 2)}, 1, true⟩
        (0, 1) (10, 2)).1.used = {(0, 1)} ∧
     (wear_leveling_normal_step ⟨{(0, 1)}, ∅, {(10, 2)}, 1, true⟩
        (0, 1) (10, 2)).1.scrub = ∅ ∧
     (wear_leveling_normal_step ⟨{(0, 1)}, ∅, {(10, 2)}, 1, true⟩
        (0, 1) (10, 2)).1.wlScheduled = false ∧
     (wear_leveling_normal_step ⟨{(0, 1)}, ∅, {(10, 2)}, 1, true⟩
        (0, 1) (10, 2)).2 = false) :=
  wl_below_threshold_cancel ⟨{(0, 1)}, ∅, {(10, 2)}, 1, true⟩ (0, 1) (10, 2)
    (by decide) (by decide)

/-! ## Theorems about ubi_wl_scrub_peb on a free PEB (claim C2) -/

/-- Concrete state for the C2 counterexample: PEB 4 sits in the free tree,
every other location is empty, no move is in flight, debug self-checks
enabled. -/
def scrubFreeCexState : PutState :=
  ⟨∅, ∅, ∅, ∅, {4}, 0, none, none, false, false, [], true⟩

/-- C2 counterexample: calling ubi_wl_scrub_peb on PEB 4, whose entry is
in the free tree, does not schedule any erase work and does not succeed:
ubi_wl_scrub_peb has no free-tree branch, so the call falls through to
prot_queue_del, which fails with -ENODEV, and the device is switched to
read-only (wl.c:1351-1363).  The works queue stays empty and the entry
stays in free. -/
theorem scrub_free_peb_counterexample :
    ubi_wl_scrub_peb scrubFreeCexState 4 =
      some ({ scrubFreeCexState with roMode := true }, -ENODEV) ∧
    (4 : Nat) ∈ scrubFreeCexState.free ∧
    ({ scrubFreeCexState with roMode := true } : PutState).works = [] ∧
    (4 : Nat) ∈ ({ scrubFreeCexState with roMode := true } : PutState).free := by
  decide

/-- C2 (amended): for every PEB whose wear-leveling entry is in the free
tree (and hence in no other location), ubi_wl_scrub_peb does NOT schedule
an immediate erase and does NOT succeed: with the generic debug checks
enabled it fails prot_queue_del, switches the device to read-only and
returns -ENODEV, leaving the state otherwise unchanged (the entry stays
in free and no work is queued).  The immediate-erase-on-free behaviour is
implemented in ubi_bitflip_check (wl.c:1478-1487), not in
ubi_wl_scrub_peb. -/
theorem scrub_peb_free_fails (s : PutState) (pnum : Nat)
    (hfree : pnum ∈ s.free) (hused : pnum ∉ s.used) (hscrub : pnum ∉ s.scrub)
    (herr : pnum ∉ s.erroneous) (hpq : pnum ∉ s.pq)
    (hmf : s.moveFrom ≠ some pnum) (hmt : s.moveTo ≠ some pnum)
    (hdbg : s.dbgChkGen = true) :
    ubi_wl_scrub_peb s pnum = some ({ s with roMode := true }, -ENODEV) := by
  unfold ubi_wl_scrub_peb
  rw [if_neg (by push_neg; exact ⟨hmf, hscrub, herr⟩), if_neg hmt,
    if_neg hused]
  unfold prot_queue_del
  rw [if_pos ⟨hdbg, hpq⟩]

/-- C2 witness: the amended theorem applied at a state holding PEB 7 in
free alongside other occupied locations. -/
theorem scrub_peb_free_fails_witness :
    ubi_wl_scrub_peb ⟨{1}, {2}, ∅, {3}, {7}, 0, none, some 9, false, false, [], true⟩ 7 =
      some ({ (⟨{1}, {2}, ∅, {3}, {7}, 0, none, some 9, false, false, [], true⟩ : PutState)
                with roMode := true }, -ENODEV) :=
  scrub_peb_free_fails ⟨{1}, {2}, ∅, {3}, {7}, 0, none, some 9, false, false, [], true⟩ 7
    (by decide) (by decide) (by decide) (by decide) (by decide)
    (by decide) (by decide) rfl

/-! ## Theorems about the put_peb allocation-failure path (claim C10) -/

/-- C10: if ubi_wl_put_peb has removed the entry from used, scrub,
erroneous or the protection queue and the erase-work allocation then
fails, the call returns -ENOMEM and re-inserts the entry into the used
tree regardless of where it came from; no work is queued, and when the
entry came from erroneous its counter stays decremented and the entry is
not restored to erroneous. -/
theorem put_peb_alloc_fail_reinserts_used (s : PutState) (pnum : Nat)
    (torture : Bool)
    (hmf : s.moveFrom ≠ some pnum) (hmt : s.moveTo ≠ some pnum)
    (hin : pnum ∈ s.used ∨ pnum ∈ s.scrub ∨ pnum ∈ s.erroneous ∨ pnum ∈ s.pq) :
    ∃ s1 : PutState,
      ubi_wl_put_peb s pnum torture false = some (s1, -ENOMEM) ∧
      pnum ∈ s1.used ∧ s1.works = s.works ∧ s1.roMode = s.roMode ∧
      (pnum ∉ s.used → pnum ∉ s.scrub → pnum ∈ s.erroneous →
        s1.erroneousPebCount = s.erroneousPebCount - 1 ∧
        pnum ∉ s1.erroneous) := by
  unfold ubi_wl_put_peb
  rw [if_neg hmf, if_neg hmt]
  by_cases hu : pnum ∈ s.used
  · rw [if_pos hu]
    exact ⟨_, rfl, Finset.mem_insert_self _ _, rfl, rfl,
      fun h _ _ => absurd hu h⟩
  · rw [if_neg hu]
    by_cases hs : pnum ∈ s.scrub
    · rw [if_pos hs]
      exact ⟨_, rfl, Finset.mem_insert_self _ _, rfl, rfl,
        fun _ h _ => absurd hs h⟩
    · rw [if_neg hs]
      by_cases he : pnum ∈ s.erroneous
      · rw [if_pos he]
        exact ⟨_, rfl, Finset.mem_insert_self _ _, rfl, rfl,
          fun _ _ _ => ⟨rfl, Finset.not_mem_erase _ _⟩⟩
      · rw [if_neg he]
        have hp : pnum ∈ s.pq := by tauto
        rw [if_pos hp]
        exact ⟨_, rfl, Finset.mem_insert_self _ _, rfl, rfl,
          fun _ _ h => absurd h he⟩

/-- C10 witness: PEB 5 removed from the erroneous tree; the failed
allocation re-inserts it into used and its counter stays decremented. -/
theorem put_peb_alloc_fail_reinserts_used_witness :
    ∃ s1 : PutState,
      ubi_wl_put_peb ⟨∅, ∅, {5}, ∅, ∅, 1, none, none, false, false, [], true⟩
          5 false false = some (s1, -ENOMEM) ∧
      (5 : Nat) ∈ s1.used ∧ s1.works = [] ∧ s1.roMode = false ∧
      ((5 : Nat) ∉ (∅ : Finset Nat) → (5 : Nat) ∉ (∅ : Finset Nat) →
        (5 : Nat) ∈ ({5} : Finset Nat) →
        s1.erroneousPebCount = 1 - 1 ∧ (5 : Nat) ∉ s1.erroneous) :=
  put_peb_alloc_fail_reinserts_used
    ⟨∅, ∅, {5}, ∅, ∅, 1, none, none, false, false, [], true⟩ 5 false
    (by decide) (by decide) (by decide)

/-! ## Full-LEB tracking and LEB invalidation (consolidate.c:450-555)

The full FIFO holds (vol_id, lnum) descriptors; the consolidated map is an
association list from PEB numbers to the slot array of the consolidated
PEB.  A dead slot holds (-1, -1) as written by consolidate.c:526-527. -/

structure LebDesc where
  vol_id : Int
  lnum : Int
deriving DecidableEq

/-- The value stored in an invalidated slot (consolidate.c:526-527). -/
def deadLebDesc : LebDesc := ⟨-1, -1⟩

structure FullState where
  hasConso : Bool
  consolidated : List (Nat × List LebDesc)
  full : List LebDesc
  fullCount : Int
deriving DecidableEq

/-- Lookup of ubi->consolidated[pnum]. -/
def consoLookup (m : List (Nat × List LebDesc)) (p : Nat) :
    Option (List LebDesc) :=
  (m.find? (fun e => e.1 == p)).map (fun e => e.2)

/-- In-place update of the slot array of PEB p (the C code mutates the
shared clebs array). -/
def consoUpdate (m : List (Nat × List LebDesc)) (p : Nat)
    (v : List LebDesc) : List (Nat × List LebDesc) :=
  m.map (fun e => if e.1 == p then (p, v) else e)

/-- ubi->consolidated[pnum] = NULL (consolidate.c:548). -/
def consoErase (m : List (Nat × List LebDesc)) (p : Nat) :
    List (Nat × List LebDesc) :=
  m.filter (fun e => !(e.1 == p))

/-- Embeds ubi_conso_remove_full_leb (consolidate.c:450-468): removes the
first entry of the full list matching the descriptor, decrementing
full_count, and reports whether one was found. -/
def ubi_conso_remove_full_leb (s : FullState) (d : LebDesc) :
    FullState × Bool :=
  if d ∈ s.full then
    ({ s with full := s.full.erase d, fullCount := s.fullCount - 1 }, true)
  else (s, false)

/-- Embeds ubi_conso_add_full_leb (consolidate.c:479-503): appends the
descriptor to the tail of the full list and increments full_count; a
device without a consolidated map does not track full LEBs. -/
def ubi_conso_add_full_leb (s : FullState) (d : LebDesc) : FullState :=
  if ¬ s.hasConso then s
  else { s with full := s.full ++ [d], fullCount := s.fullCount + 1 }

/-- The value the local variable pos holds after the marking loop of
ubi_conso_invalidate_leb (consolidate.c:524-532): the index of the slot
matching the descriptor, none standing for the initial -1. -/
def slotPos (clebs : List LebDesc) (d : LebDesc) : Option Nat :=
  clebs.findIdx? (fun c => c == d)

/-- The slot array after the marking loop: the matching slot is set to
(-1, -1) (consolidate.c:525-528). -/
def slotsMark (clebs : List LebDesc) (d : LebDesc) : List LebDesc :=
  clebs.map (fun c => if c == d then deadLebDesc else c)

/-- The value the local variable remaining holds after the loop: the
number of NON-matching slots whose lnum is non-negative
(consolidate.c:529-530). -/
def slotsRemaining (clebs : List LebDesc) (d : LebDesc) : Nat :=
  (clebs.filter (fun c => !(c == d) && decide (0 ≤ c.lnum))).length

/-- The descriptors appended to the full list by the loop at
consolidate.c:537-543: every slot index except pos (so when no slot
matched and pos stayed -1, every slot is taken, dead ones included). -/
def slotsToReadd (N : Nat) (clebs : List LebDesc) (d : LebDesc) :
    List LebDesc :=
  ((List.range N).filter (fun i => slotPos clebs d ≠ some i)).map
    (fun i => (slotsMark clebs d).getD i deadLebDesc)

/-- The branch of ubi_conso_invalidate_leb taken when the PEB has a slot
array clebs (consolidate.c:520-554), for a device with lebs_per_cpeb = N.
Returns the new state, the C return value !remaining, and whether the
assertion ubi_assert(pos >= 0) at consolidate.c:534 held. -/
def invalidateSlots (N : Nat) (s : FullState) (pnum : Nat) (d : LebDesc)
    (clebs : List LebDesc) : FullState × Bool × Bool :=
  if slotsRemaining clebs d = N - 1 then
    ((slotsToReadd N clebs d).foldl ubi_conso_add_full_leb
        { s with consolidated :=
            consoUpdate s.consolidated pnum (slotsMark clebs d) },
     decide (slotsRemaining clebs d = 0), (slotPos clebs d).isSome)
  else if slotsRemaining clebs d = 0 then
    -- consolidate.c:544-550 removes the descriptor from full and then
    -- NULLs consolidated[pnum]; the removal never reads the map, so the
    -- two updates are applied here in one pass
    ((ubi_conso_remove_full_leb
        { s with consolidated :=
            (consoErase (consoUpdate s.consolidated pnum (slotsMark clebs d))
              pnum) } d).1,
     true, (slotPos clebs d).isSome)
  else
    ((ubi_conso_remove_full_leb
        { s with consolidated :=
            consoUpdate s.consolidated pnum (slotsMark clebs d) } d).1,
     false, (slotPos clebs d).isSome)

/-- Embeds ubi_conso_invalidate_leb (consolidate.c:505-555). -/
def ubi_conso_invalidate_leb (N : Nat) (s : FullState) (pnum : Nat)
    (d : LebDesc) : FullState × Bool × Bool :=
  if ¬ s.hasConso then (s, true, true)
  else
    match consoLookup s.consolidated pnum with
    | none => ((ubi_conso_remove_full_leb s d).1, true, true)
    | some clebs => invalidateSlots N s pnum d clebs

/-! ## Theorems about invalidate-LEB idempotence (claim C3) -/

/-- Equation for invalidate-LEB on a device without a consolidated map. -/
theorem invalidate_leb_eq_noConso (N : Nat) (s : FullState) (pnum : Nat)
    (d : LebDesc) (h : s.hasConso = false) :
    ubi_conso_invalidate_leb N s pnum d = (s, true, true) := by
  unfold ubi_conso_invalidate_leb
  rw [if_pos (by simp [h])]

/-- Equation for invalidate-LEB on a PEB absent from the consolidated
map. -/
theorem invalidate_leb_eq_none (N : Nat) (s : FullState) (pnum : Nat)
    (d : LebDesc) (hc : s.hasConso = true)
    (hm : consoLookup s.consolidated pnum = none) :
    ubi_conso_invalidate_leb N s pnum d
      = ((ubi_conso_remove_full_leb s d).1, true, true) := by
  unfold ubi_conso_invalidate_leb
  rw [if_neg (by simp [hc]), hm]

/-- Equation for invalidate-LEB on a PEB with a slot array. -/
theorem invalidate_leb_eq_some (N : Nat) (s : FullState) (pnum : Nat)
    (d : LebDesc) (clebs : List LebDesc) (hc : s.hasConso = true)
    (hm : consoLookup s.consolidated pnum = some clebs) :
    ubi_conso_invalidate_leb N s pnum d = invalidateSlots N s pnum d clebs := by
  unfold ubi_conso_invalidate_leb
  rw [if_neg (by simp [hc]), hm]

/-- A descriptor occurring at most once in a list is gone after one
List.erase. -/
theorem count_le_one_not_mem_erase (l : List LebDesc) (d : LebDesc)
    (h : l.count d ≤ 1) : d ∉ l.erase d := by
  intro hmem
  have h1 : (l.erase d).count d = l.count d - 1 := List.count_erase_self d l
  have h2 : 0 < (l.erase d).count d := List.count_pos_iff.mpr hmem
  omega

/-- Removing an absent descriptor is a no-op. -/
theorem remove_full_leb_not_mem (s : FullState) (d : LebDesc)
    (h : d ∉ s.full) : ubi_conso_remove_full_leb s d = (s, false) := by
  unfold ubi_conso_remove_full_leb
  rw [if_neg h]

/-- ubi_conso_remove_full_leb only touches the full list and its
counter. -/
theorem remove_full_leb_fields (s : FullState) (d : LebDesc) :
    (ubi_conso_remove_full_leb s d).1.hasConso = s.hasConso ∧
    (ubi_conso_remove_full_leb s d).1.consolidated = s.consolidated ∧
    (d ∈ s.full → (ubi_conso_remove_full_leb s d).1.full = s.full.erase d) ∧
    (d ∉ s.full → (ubi_conso_remove_full_leb s d).1.full = s.full) := by
  unfold ubi_conso_remove_full_leb
  by_cases h : d ∈ s.full
  · rw [if_pos h]
    exact ⟨rfl, rfl, fun _ => rfl, fun hn => absurd h hn⟩
  · rw [if_neg h]
    exact ⟨rfl, rfl, fun hn => absurd hn h, fun _ => rfl⟩

/-- Erasing a PEB from the consolidated map makes its lookup fail. -/
theorem consoLookup_consoErase (m : List (Nat × List LebDesc)) (p : Nat) :
    consoLookup (consoErase m p) p = none := by
  unfold consoLookup consoErase
  have hfind :
      List.find? (fun e => e.1 == p) (m.filter (fun e => !(e.1 == p)))
        = none := by
    apply List.find?_eq_none.mpr
    intro x hx
    have h2 := (List.mem_filter.mp hx).2
    simp only [Bool.not_eq_eq_eq_not, Bool.not_true] at h2
    simp [h2]
  rw [hfind]
  rfl

/-- When the slot branch of invalidate-LEB reports the PEB fully
invalidated (with lebs_per_cpeb at least 2), the consolidated map no
longer resolves the PEB, the descriptor is dropped from the full list and
hasConso is untouched. -/
theorem invalidateSlots_true_shape (N : Nat) (s : FullState) (pnum : Nat)
    (d : LebDesc) (clebs : List LebDesc) (hN : 2 ≤ N)
    (hfst : (invalidateSlots N s pnum d clebs).2.1 = true) :
    (invalidateSlots N s pnum d clebs).1.hasConso = s.hasConso ∧
    consoLookup (invalidateSlots N s pnum d clebs).1.consolidated pnum
      = none ∧
    (d ∈ s.full →
      (invalidateSlots N s pnum d clebs).1.full = s.full.erase d) ∧
    (d ∉ s.full → (invalidateSlots N s pnum d clebs).1.full = s.full) := by
  unfold invalidateSlots at hfst ⊢
  split_ifs at hfst ⊢ with h1 h2
  · exfalso
    have h0 := of_decide_eq_true hfst
    omega
  · obtain ⟨ha, hb, hc1, hc2⟩ := remove_full_leb_fields
      { s with consolidated :=
          (consoErase (consoUpdate s.consolidated pnum (slotsMark clebs d))
            pnum) } d
    exact ⟨ha, by rw [hb]; exact consoLookup_consoErase _ _, hc1, hc2⟩

/-- C3 (amended): a second identical call of ubi_conso_invalidate_leb is
a safe no-op ONLY once the first call has reported the PEB fully
invalidated (return value true): then the second call leaves the state
unchanged, returns true again and does not trip the internal assertion.
(When live LEBs remain after the first call, a second identical call
violates the assertion ubi_assert(pos >= 0) and appends spurious
descriptors to the full list, as the counterexample shows.)  Hypotheses:
lebs_per_cpeb is at least 2 and the descriptor occurs at most once in the
full list, both invariants of the consolidation engine. -/
theorem invalidate_leb_idempotent_after_full_invalidate (N : Nat)
    (s : FullState) (pnum : Nat) (d : LebDesc) (hN : 2 ≤ N)
    (hcnt : s.full.count d ≤ 1)
    (hfst : (ubi_conso_invalidate_leb N s pnum d).2.1 = true) :
    ubi_conso_invalidate_leb N (ubi_conso_invalidate_leb N s pnum d).1 pnum d
      = ((ubi_conso_invalidate_leb N s pnum d).1, true, true) := by
  by_cases hc : s.hasConso = true
  · have hnotmem : ∀ t : FullState,
        (t.full = s.full.erase d ∨ t.full = s.full ∧ d ∉ s.full) →
        d ∉ t.full := by
      rintro t (ht | ⟨ht, hd⟩)
      · rw [ht]; exact count_le_one_not_mem_erase s.full d hcnt
      · rw [ht]; exact hd
    cases hm : consoLookup s.consolidated pnum with
    | none =>
      rw [invalidate_leb_eq_none N s pnum d hc hm] at hfst ⊢
      obtain ⟨ha, hb, hc1, hc2⟩ := remove_full_leb_fields s d
      have hdnot : d ∉ (ubi_conso_remove_full_leb s d).1.full := by
        by_cases hd : d ∈ s.full
        · exact hnotmem _ (Or.inl (hc1 hd))
        · exact hnotmem _ (Or.inr ⟨hc2 hd, hd⟩)
      rw [invalidate_leb_eq_none N _ pnum d (by rw [ha]; exact hc)
          (by rw [hb]; exact hm),
        remove_full_leb_not_mem _ d hdnot]
    | some clebs =>
      rw [invalidate_leb_eq_some N s pnum d clebs hc hm] at hfst ⊢
      obtain ⟨ha, hb, hc1, hc2⟩ :=
        invalidateSlots_true_shape N s pnum d clebs hN hfst
      have hdnot : d ∉ (invalidateSlots N s pnum d clebs).1.full := by
        by_cases hd : d ∈ s.full
        · exact hnotmem _ (Or.inl (hc1 hd))
        · exact hnotmem _ (Or.inr ⟨hc2 hd, hd⟩)
      rw [invalidate_leb_eq_none N _ pnum d (by rw [ha]; exact hc) hb,
        remove_full_leb_not_mem _ d hdnot]
  · have hcf : s.hasConso = false := by
      cases h : s.hasConso
      · rfl
      · exact absurd h hc
    rw [invalidate_leb_eq_noConso N s pnum d hcf] at hfst ⊢
    rw [invalidate_leb_eq_noConso N s pnum d hcf]

/-- Concrete state for the C3 counterexample: PEB 7 holds two live
consolidated LEBs (1, 10) and (1, 11); the full list is empty. -/
def invCexState : FullState :=
  ⟨true, [(7, [⟨1, 10⟩, ⟨1, 11⟩])], [], 0⟩

/-- The state after the first invalidation of LEB (1, 10) on PEB 7. -/
def invCexOnce : FullState :=
  (ubi_conso_invalidate_leb 2 invCexState 7 ⟨1, 10⟩).1

/-- C3 counterexample: after invalidating LEB (1, 10) of the freshly
consolidated PEB 7 once (which legitimately promotes the surviving LEB
(1, 11) to the full list), a second identical call is NOT a safe no-op:
no slot matches any more, so the assertion ubi_assert(pos >= 0) fails
(third component false), and because the surviving count again equals
N - 1 the loop at consolidate.c:537-543 appends both remaining slots to
the full list, including the dead (-1, -1) descriptor and a duplicate of
(1, 11); full_count grows from 1 to 3. -/
theorem invalidate_leb_second_call_counterexample :
    invCexOnce.full = [⟨1, 11⟩] ∧ invCexOnce.fullCount = 1 ∧
    (ubi_conso_invalidate_leb 2 invCexOnce 7 ⟨1, 10⟩).1.full
      = [⟨1, 11⟩, deadLebDesc, ⟨1, 11⟩] ∧
    (ubi_conso_invalidate_leb 2 invCexOnce 7 ⟨1, 10⟩).1.fullCount = 3 ∧
    (ubi_conso_invalidate_leb 2 invCexOnce 7 ⟨1, 10⟩).2.2 = false := by
  decide

/-- C3 witness: invalidating both LEBs of PEB 7 in turn fully invalidates
it; the third call (the second identical one for LEB (1, 11)) is then a
no-op returning true. -/
theorem invalidate_leb_idempotent_witness :
    ubi_conso_invalidate_leb 2
        (ubi_conso_invalidate_leb 2 (invCexOnce) 7 ⟨1, 11⟩).1 7 ⟨1, 11⟩
      = ((ubi_conso_invalidate_leb 2 (invCexOnce) 7 ⟨1, 11⟩).1, true, true) :=
  invalidate_leb_idempotent_after_full_invalidate 2 invCexOnce 7 ⟨1, 11⟩
    (by decide) (by decide) (by decide)

/-! ## Consolidation cycle failure paths (consolidate.c:156-358)

State of the resources a consolidation cycle manipulates: the full FIFO,
the per-LEB write-locks taken by find_consolidable_lebs, the two long-held
locks (buf_mutex and the read side of fm_eba_sem), the EBA table and the
PEBs handed to ubi_wl_put_peb for erasure. -/

structure ConsoCycleState where
  full : List LebDesc
  fullCount : Int
  locks : List LebDesc
  bufMutexHeld : Bool
  fmEbaSemHeld : Bool
  eba : List (LebDesc × Nat)
  erasePending : List Nat
deriving DecidableEq

/-- Effect of a successful find_consolidable_lebs (consolidate.c:14-129)
choosing the descriptors clebs: each chosen full LEB is write-locked and
its entry is removed from the full FIFO with full_count decremented
(consolidate.c:43, 65-71). -/
def find_consolidable_success (s : ConsoCycleState) (clebs : List LebDesc) :
    ConsoCycleState :=
  { s with full := clebs.foldl (fun f d => f.erase d) s.full,
           fullCount := s.fullCount - clebs.length,
           locks := s.locks ++ clebs }

/-- Embeds consolidation_unlock (consolidate.c:5-12): releases the write
locks of the N chosen LEBs. -/
def consolidation_unlock (s : ConsoCycleState) (clebs : List LebDesc) :
    ConsoCycleState :=
  { s with locks := s.locks.filter (fun d => !(clebs.contains d)) }

/-- The err_unlock_lebs exit of consolidate_lebs (consolidate.c:349-350):
only consolidation_unlock runs before the memory is freed and the error
returned. -/
def goto_err_unlock_lebs (s : ConsoCycleState) (clebs : List LebDesc) :
    ConsoCycleState :=
  consolidation_unlock s clebs

/-- The err_unlock_fm_eba exit of consolidate_lebs (consolidate.c:341-350):
unlock buf_mutex, release fm_eba_sem, re-add every chosen LEB to the full
FIFO (ubi_conso_add_full_leb for each of the N descriptors,
consolidate.c:345-346), hand the freshly allocated PEB back through
ubi_wl_put_peb (consolidate.c:348) and fall through to err_unlock_lebs. -/
def goto_err_unlock_fm_eba (s : ConsoCycleState) (clebs : List LebDesc)
    (newPnum : Nat) : ConsoCycleState :=
  let s1 : ConsoCycleState :=
    { s with bufMutexHeld := false, fmEbaSemHeld := false }
  let s2 : ConsoCycleState :=
    { s1 with full := s1.full ++ clebs,
              fullCount := s1.fullCount + clebs.length }
  let s3 : ConsoCycleState :=
    { s2 with erasePending := s2.erasePending ++ [newPnum] }
  goto_err_unlock_lebs s3 clebs

/-- The points at which a consolidation cycle can fail between
find_consolidable_lebs and the EBA update, each annotated with the goto
target the C code takes. -/
inductive ConsoFailPoint where
  /-- ubi_wl_get_peb failed (consolidate.c:197-204). -/
  | getPeb : ConsoFailPoint
  /-- ubi_io_read or ubi_io_raw_read of a source LEB failed
  (consolidate.c:233-243, goto err_unlock_fm_eba). -/
  | bufferRead : ConsoFailPoint
  /-- ubi_zalloc_vid_hdr failed (consolidate.c:252-256,
  goto err_unlock_fm_eba with -ENOMEM). -/
  | vidHdrAlloc : ConsoFailPoint
  /-- ubi_io_read_vid_hdrs of a static-volume source failed
  (consolidate.c:258-262, goto err_unlock_fm_eba). -/
  | vidHdrsRead : ConsoFailPoint
  /-- ubi_io_write_vid_hdrs to the new PEB failed (consolidate.c:289-294,
  goto err_unlock_lebs). -/
  | vidHdrsWrite : ConsoFailPoint
  /-- ubi_io_raw_write of the data region failed (consolidate.c:296-303,
  goto err_unlock_fm_eba). -/
  | rawWrite : ConsoFailPoint
deriving DecidableEq

/-- Embeds the failure exits of consolidate_lebs (consolidate.c:195-357)
for a cycle that enters with the N LEBs clebs locked and removed from the
full FIFO.  The cycle first takes buf_mutex (consolidate.c:195) and
ubi_wl_get_peb returns holding the read side of fm_eba_sem; on the getPeb
failure both are dropped again before err_unlock_lebs (consolidate.c:
201-203).  err is the error code of the failing collaborator call.  The
EBA table is untouched on every one of these paths (the update loop at
consolidate.c:305-318 runs only after both writes succeeded). -/
def consolidate_lebs_on_failure (s : ConsoCycleState) (clebs : List LebDesc)
    (newPnum : Nat) (fp : ConsoFailPoint) (err : Int) :
    ConsoCycleState × Int :=
  match fp with
  | .getPeb =>
    (goto_err_unlock_lebs
      { s with bufMutexHeld := false, fmEbaSemHeld := false } clebs, err)
  | .bufferRead =>
    (goto_err_unlock_fm_eba
      { s with bufMutexHeld := true, fmEbaSemHeld := true } clebs newPnum,
     err)
  | .vidHdrAlloc =>
    (goto_err_unlock_fm_eba
      { s with bufMutexHeld := true, fmEbaSemHeld := true } clebs newPnum,
     -ENOMEM)
  | .vidHdrsRead =>
    (goto_err_unlock_fm_eba
      { s with bufMutexHeld := true, fmEbaSemHeld := true } clebs newPnum,
     err)
  | .vidHdrsWrite =>
    (goto_err_unlock_lebs
      { s with bufMutexHeld := true, fmEbaSemHeld := true } clebs, err)
  | .rawWrite =>
    (goto_err_unlock_fm_eba
      { s with bufMutexHeld := true, fmEbaSemHeld := true } clebs newPnum,
     err)

/-! ## Theorem about consolidation failure atomicity (claim C1) -/

/-- C1 (code bug): when the VID-header write to the freshly allocated PEB
fails, the cycle does NOT restore its resources: starting from any state,
after find_consolidable_lebs removed the N chosen LEBs from the full FIFO
and locked them, the vidHdrsWrite failure exit leaves the full FIFO
exactly as find_consolidable_lebs left it (the N LEBs are never re-added,
unlike on the neighbouring err_unlock_fm_eba exits), never hands the new
PEB to ubi_wl_put_peb, and leaves both buf_mutex and fm_eba_sem held;
only the write-locks are released.  The EBA table is unchanged (that part
of the claim holds).  This contradicts the specified failure handling,
which the raw-data-write exit one line below implements. -/
theorem consolidate_vid_write_failure_not_atomic (s : ConsoCycleState)
    (clebs : List LebDesc) (newPnum : Nat) (err : Int) :
    (consolidate_lebs_on_failure (find_consolidable_success s clebs) clebs
        newPnum .vidHdrsWrite err).1.full
      = (find_consolidable_success s clebs).full ∧
    (consolidate_lebs_on_failure (find_consolidable_success s clebs) clebs
        newPnum .vidHdrsWrite err).1.fullCount
      = s.fullCount - clebs.length ∧
    (consolidate_lebs_on_failure (find_consolidable_success s clebs) clebs
        newPnum .vidHdrsWrite err).1.erasePending = s.erasePending ∧
    (consolidate_lebs_on_failure (find_consolidable_success s clebs) clebs
        newPnum .vidHdrsWrite err).1.eba = s.eba ∧
    (consolidate_lebs_on_failure (find_consolidable_success s clebs) clebs
        newPnum .vidHdrsWrite err).1.bufMutexHeld = true ∧
    (consolidate_lebs_on_failure (find_consolidable_success s clebs) clebs
        newPnum .vidHdrsWrite err).1.fmEbaSemHeld = true ∧
    (consolidate_lebs_on_failure (find_consolidable_success s clebs) clebs
        newPnum .vidHdrsWrite err).2 = err :=
  ⟨rfl, rfl, rfl, rfl, rfl, rfl, rfl⟩

/-- For contrast with the claim C1 bug: the raw-data-write failure exit
(err_unlock_fm_eba) restores the full FIFO by appending the N chosen
LEBs, releases the new PEB for erasure and drops both long-held locks, as
the specification describes. -/
theorem consolidate_raw_write_failure_restores (s : ConsoCycleState)
    (clebs : List LebDesc) (newPnum : Nat) (err : Int) :
    (consolidate_lebs_on_failure (find_consolidable_success s clebs) clebs
        newPnum .rawWrite err).1.full
      = (find_consolidable_success s clebs).full ++ clebs ∧
    (consolidate_lebs_on_failure (find_consolidable_success s clebs) clebs
        newPnum .rawWrite err).1.fullCount = s.fullCount ∧
    (consolidate_lebs_on_failure (find_consolidable_success s clebs) clebs
        newPnum .rawWrite err).1.erasePending
      = s.erasePending ++ [newPnum] ∧
    (consolidate_lebs_on_failure (find_consolidable_success s clebs) clebs
        newPnum .rawWrite err).1.eba = s.eba ∧
    (consolidate_lebs_on_failure (find_consolidable_success s clebs) clebs
        newPnum .rawWrite err).1.bufMutexHeld = false ∧
    (consolidate_lebs_on_failure (find_consolidable_success s clebs) clebs
        newPnum .rawWrite err).1.fmEbaSemHeld = false := by
  refine ⟨rfl, ?_, rfl, rfl, rfl, rfl⟩
  show s.fullCount - (clebs.length : Int) + (clebs.length : Int) = s.fullCount
  omega

/-! ## Counter invariants over all wear-leveling operations (claim C4)

Every site in wl.c and consolidate.c that moves a PEB in or out of the
free or erroneous tree, or a descriptor in or out of the full FIFO,
updates the matching counter in the same critical section.  The state
machine below has one transition per kind of paired update, each listing
the source sites it covers; the used, scrub and protection-queue moves
carry no counter and are included to cover the full operation mix of
get_peb, put_peb, the erase worker, the wear-leveling worker, scrubbing,
consolidation and invalidate-LEB. -/

structure CounterState where
  free : Finset Nat
  used : Finset Nat
  scrub : Finset Nat
  erroneous : Finset Nat
  pq : Finset Nat
  fullLebs : List LebDesc
  freeCount : Int
  erroneousPebCount : Int
  fullCount : Int
deriving DecidableEq

inductive WlStep : CounterState → CounterState → Prop where
  /-- Insertion into the free tree with free_count++: erase worker success
  (wl.c:1097-1098), below-threshold move cancel (wl.c:786-787), attach
  scan (wl.c:1627-1628).  The PEB was owned by the work or the worker, so
  it is not already in the tree. -/
  | freeInsert (s : CounterState) (p : Nat) (h : p ∉ s.free) :
      WlStep s { s with free := insert p s.free,
                        freeCount := s.freeCount + 1 }
  /-- Removal from the free tree with free_count--: wl_get_wle
  (wl.c:369-370), get_peb_for_wl (wl.c:1877-1879), ubi_bitflip_check free
  case (wl.c:1479-1480). -/
  | freeErase (s : CounterState) (p : Nat) (h : p ∈ s.free) :
      WlStep s { s with free := s.free.erase p,
                        freeCount := s.freeCount - 1 }
  /-- Insertion into the used tree (no counter): serve_prot_queue
  (wl.c:580-581), move done (wl.c:917), out_not_moved (wl.c:963), put_peb
  allocation-failure re-insert (wl.c:1300), attach (wl.c:1647). -/
  | usedInsert (s : CounterState) (p : Nat) :
      WlStep s { s with used := insert p s.used }
  /-- Removal from the used tree: wear_leveling_worker (wl.c:791),
  put_peb (wl.c:1273), scrub_peb (wl.c:1353), bitflip check
  (wl.c:1473). -/
  | usedErase (s : CounterState) (p : Nat) :
      WlStep s { s with used := s.used.erase p }
  /-- Insertion into the scrub tree: out_not_moved scrubbing
  (wl.c:961), scrub_peb (wl.c:1366), bitflip check (wl.c:1468, 1474),
  attach (wl.c:1651). -/
  | scrubInsert (s : CounterState) (p : Nat) :
      WlStep s { s with scrub := insert p s.scrub }
  /-- Removal from the scrub tree: wear_leveling_worker scrubbing path
  (wl.c:803), put_peb (wl.c:1276). -/
  | scrubErase (s : CounterState) (p : Nat) :
      WlStep s { s with scrub := s.scrub.erase p }
  /-- Insertion into the protection queue: prot_queue_add called from
  get_peb (wl.c:1959) and from the out_not_moved protect case
  (wl.c:956). -/
  | pqInsert (s : CounterState) (p : Nat) :
      WlStep s { s with pq := insert p s.pq }
  /-- Removal from the protection queue: serve_prot_queue (wl.c:580),
  prot_queue_del from put_peb, scrub_peb or bitflip check
  (wl.c:395). -/
  | pqErase (s : CounterState) (p : Nat) :
      WlStep s { s with pq := s.pq.erase p }
  /-- Insertion into the erroneous tree with erroneous_peb_count += 1:
  the MOVE_SOURCE_RD_ERR case of out_not_moved (wl.c:957-959). -/
  | errInsert (s : CounterState) (p : Nat) (h : p ∉ s.erroneous) :
      WlStep s { s with erroneous := insert p s.erroneous,
                        erroneousPebCount := s.erroneousPebCount + 1 }
  /-- Removal from the erroneous tree with erroneous_peb_count -= 1:
  put_peb (wl.c:1277-1280). -/
  | errErase (s : CounterState) (p : Nat) (h : p ∈ s.erroneous) :
      WlStep s { s with erroneous := s.erroneous.erase p,
                        erroneousPebCount := s.erroneousPebCount - 1 }
  /-- Append to the full FIFO with full_count++: ubi_conso_add_full_leb
  (consolidate.c:497-499), called by EBA, invalidate-LEB
  (consolidate.c:541) and the consolidation error path
  (consolidate.c:345-346); also the find_consolidable_lebs error re-add
  (consolidate.c:118-124). -/
  | fullAppend (s : CounterState) (d : LebDesc) :
      WlStep s { s with fullLebs := s.fullLebs ++ [d],
                        fullCount := s.fullCount + 1 }
  /-- Removal of a present descriptor with full_count--:
  ubi_conso_remove_full_leb (consolidate.c:456-463), the
  find_consolidable_lebs pop (consolidate.c:65-71), ubi_conso_close
  (consolidate.c:590-594). -/
  | fullRemove (s : CounterState) (d : LebDesc) (h : d ∈ s.fullLebs) :
      WlStep s { s with fullLebs := s.fullLebs.erase d,
                        fullCount := s.fullCount - 1 }
  /-- Rotation of a contended head descriptor to the tail, leaving
  full_count alone (find_consolidable_lebs, consolidate.c:47-55). -/
  | fullRotate (s : CounterState) (d : LebDesc) (rest : List LebDesc)
      (h : s.fullLebs = d :: rest) :
      WlStep s { s with fullLebs := rest ++ [d] }

/-- The three counter invariants of the claim: free_count matches the
free tree, erroneous_peb_count matches the erroneous tree, full_count
matches the full FIFO. -/
def CounterInv (s : CounterState) : Prop :=
  s.freeCount = s.free.card ∧
  s.erroneousPebCount = s.erroneous.card ∧
  s.fullCount = s.fullLebs.length

/-- Every single operation preserves the counter invariants. -/
theorem wlStep_preserves_counterInv {s t : CounterState} (h : WlStep s t)
    (hI : CounterInv s) : CounterInv t := by
  obtain ⟨h1, h2, h3⟩ := hI
  cases h with
  | freeInsert p hp =>
    exact ⟨by rw [Finset.card_insert_of_not_mem hp]; push_cast; omega,
      h2, h3⟩
  | freeErase p hp =>
    refine ⟨?_, h2, h3⟩
    show s.freeCount - 1 = ((s.free.erase p).card : Int)
    rw [Finset.card_erase_of_mem hp]
    have hpos : 0 < s.free.card := Finset.card_pos.mpr ⟨p, hp⟩
    omega
  | usedInsert p => exact ⟨h1, h2, h3⟩
  | usedErase p => exact ⟨h1, h2, h3⟩
  | scrubInsert p => exact ⟨h1, h2, h3⟩
  | scrubErase p => exact ⟨h1, h2, h3⟩
  | pqInsert p => exact ⟨h1, h2, h3⟩
  | pqErase p => exact ⟨h1, h2, h3⟩
  | errInsert p hp =>
    exact ⟨h1, by rw [Finset.card_insert_of_not_mem hp]; push_cast; omega,
      h3⟩
  | errErase p hp =>
    refine ⟨h1, ?_, h3⟩
    show s.erroneousPebCount - 1 = ((s.erroneous.erase p).card : Int)
    rw [Finset.card_erase_of_mem hp]
    have hpos : 0 < s.erroneous.card := Finset.card_pos.mpr ⟨p, hp⟩
    omega
  | fullAppend d =>
    refine ⟨h1, h2, ?_⟩
    show s.fullCount + 1 = ((s.fullLebs ++ [d]).length : Int)
    rw [List.length_append]
    simp only [List.length_singleton]
    push_cast
    omega
  | fullRemove d hd =>
    refine ⟨h1, h2, ?_⟩
    show s.fullCount - 1 = ((s.fullLebs.erase d).length : Int)
    rw [List.length_erase_of_mem hd]
    have hpos : 0 < s.fullLebs.length := List.length_pos_of_mem hd
    omega
  | fullRotate d rest hd =>
    refine ⟨h1, h2, ?_⟩
    show s.fullCount = ((rest ++ [d]).length : Int)
    rw [hd] at h3
    rw [List.length_append]
    simp only [List.length_cons] at h3
    simp only [List.length_singleton]
    push_cast at h3 ⊢
    omega

/-- Reachability by any finite sequence of the operations above. -/
def WlReachable : CounterState → CounterState → Prop :=
  Relation.ReflTransGen WlStep

/-- C4: in every state reachable by any sequence of the modelled
operations (get_peb, put_peb, erase worker, wear-leveling move, scrub,
consolidation, invalidate-LEB) from a state satisfying the counter
invariants, free_count equals the cardinality of the free tree,
erroneous_peb_count equals the cardinality of the erroneous tree, and
full_count equals the length of the full FIFO. -/
theorem counters_match_sets (s t : CounterState) (h0 : CounterInv s)
    (h : WlReachable s t) : CounterInv t := by
  induction h with
  | refl => exact h0
  | tail _ hstep ih => exact wlStep_preserves_counterInv hstep ih

/-- The empty initial state of the counter machine. -/
def counterState0 : CounterState := ⟨∅, ∅, ∅, ∅, ∅, [], 0, 0, 0⟩

/-- C4 witness: a concrete three-step run (insert PEB 5 into free, move a
descriptor through the full FIFO) keeps the invariants. -/
theorem counters_match_sets_witness :
    CounterInv { counterState0 with
        free := insert 5 counterState0.free,
        freeCount := counterState0.freeCount + 1 } :=
  counters_match_sets counterState0 _
    (by unfold CounterInv counterState0; refine ⟨by decide, by decide, by decide⟩)
    (Relation.ReflTransGen.single
      (WlStep.freeInsert counterState0 5 (by decide)))

/-! ## The closest-to-min+diff search find_wl_entry (wl.c:276-308)

The free RB-tree is modelled as a binary search tree over keys
(ec, pnum) compared lexicographically (the insertion order of wl_tree_add,
wl.c:144-170); find_wl_entry walks it exactly as the C loop does, with
the fastmap anchor hold-back of wl.c:300-307 at the end. -/

/-- Strict lexicographic order on (ec, pnum) keys, as implemented by
wl_tree_add (wl.c:155-165). -/
def keyLt (a b : Int × Nat) : Prop :=
  a.1 < b.1 ∨ (a.1 = b.1 ∧ a.2 < b.2)

instance instDecKeyLt (a b : Int × Nat) : Decidable (keyLt a b) :=
  decidable_of_iff (a.1 < b.1 ∨ (a.1 = b.1 ∧ a.2 < b.2)) Iff.rfl

/-- Reflexive closure of keyLt. -/
def keyLe (a b : Int × Nat) : Prop := a = b ∨ keyLt a b

instance instDecKeyLe (a b : Int × Nat) : Decidable (keyLe a b) :=
  decidable_of_iff (a = b ∨ keyLt a b) Iff.rfl

/-- The larger of two keys. -/
def keyMax (a b : Int × Nat) : Int × Nat := if keyLt a b then b else a

inductive WlTree where
  | leaf : WlTree
  | node : WlTree → Int → Nat → WlTree → WlTree
deriving DecidableEq

/-- In-order listing of the keys of a tree. -/
def WlTree.elems : WlTree → List (Int × Nat)
  | .leaf => []
  | .node l ec pn r => l.elems ++ (ec, pn) :: r.elems

/-- The search-tree invariant maintained by wl_tree_add. -/
def WlTree.wf : WlTree → Prop
  | .leaf => True
  | .node l ec pn r =>
      (∀ x ∈ l.elems, keyLt x (ec, pn)) ∧
      (∀ x ∈ r.elems, keyLt (ec, pn) x) ∧ l.wf ∧ r.wf

instance instDecWlTreeWf : (t : WlTree) → Decidable t.wf
  | .leaf => .isTrue trivial
  | .node l ec pn r =>
    letI := instDecWlTreeWf l
    letI := instDecWlTreeWf r
    decidable_of_iff
      ((∀ x ∈ l.elems, keyLt x (ec, pn)) ∧
       (∀ x ∈ r.elems, keyLt (ec, pn) x) ∧ l.wf ∧ r.wf) Iff.rfl

/-- rb_first: the leftmost (smallest) entry of the tree (wl.c:283). -/
def WlTree.rbFirst : WlTree → Option (Int × Nat)
  | .leaf => none
  | .node l ec pn _ =>
    match l.rbFirst with
    | some k => some k
    | none => some (ec, pn)

/-- The search loop of find_wl_entry (wl.c:286-298): starting from the
accumulator e (initially the minimum entry) and prev (initially NULL), at
each node descend left when its ec is at least max, else record the node
in e, the previous e in prev_e, and descend right. -/
def wlWalk : WlTree → Int → (Int × Nat) → Option (Int × Nat) →
    (Int × Nat) × Option (Int × Nat)
  | .leaf, _, e, prev => (e, prev)
  | .node l ec pn r, mx, e, prev =>
    if ec ≥ mx then wlWalk l mx e prev
    else wlWalk r mx (ec, pn) (some e)

/-- The fastmap fields of struct ubi_device read by find_wl_entry:
fm_disabled, whether ubi->fm is non-NULL, and the macro UBI_FM_MAX_START
whose value lives in ubi.h. -/
structure FmCfg where
  fmDisabled : Bool
  fmPresent : Bool
  fmMaxStart : Nat
deriving DecidableEq

/-- Embeds find_wl_entry (wl.c:276-308).  max is the ec of the minimum
entry plus diff (wl.c:283-284); after the walk, if no fastmap has been
written, fastmap is not disabled and the found entry could serve as an
anchor PEB (pnum below UBI_FM_MAX_START), the previous candidate prev_e
is returned instead (wl.c:300-306).  An empty tree has no rb_first; the C
code would dereference garbage, so the model returns none. -/
def find_wl_entry (cfg : FmCfg) (root : WlTree) (diff : Int) :
    Option (Int × Nat) :=
  match root.rbFirst with
  | none => none
  | some first =>
    match wlWalk root (first.1 + diff) first none with
    | (e, some p) =>
      if ¬ cfg.fmDisabled ∧ ¬ cfg.fmPresent ∧ e.2 < cfg.fmMaxStart
      then some p else some e
    | (e, none) => some e

/-! ## Order and fold lemmas for the search proof -/

theorem keyLe_refl (a : Int × Nat) : keyLe a a := Or.inl rfl

theorem keyLe_of_keyLt {a b : Int × Nat} (h : keyLt a b) : keyLe a b :=
  Or.inr h

theorem keyLt_trans {a b c : Int × Nat} (h1 : keyLt a b) (h2 : keyLt b c) :
    keyLt a c := by
  rcases a with ⟨a1, a2⟩; rcases b with ⟨b1, b2⟩; rcases c with ⟨c1, c2⟩
  simp only [keyLt] at *
  omega

theorem keyLe_trans {a b c : Int × Nat} (h1 : keyLe a b) (h2 : keyLe b c) :
    keyLe a c := by
  rcases h1 with rfl | h1
  · exact h2
  · rcases h2 with rfl | h2
    · exact Or.inr h1
    · exact Or.inr (keyLt_trans h1 h2)

theorem keyLe_of_not_keyLt {a b : Int × Nat} (h : ¬ keyLt a b) :
    keyLe b a := by
  rcases a with ⟨a1, a2⟩; rcases b with ⟨b1, b2⟩
  simp only [keyLt, keyLe, Prod.mk.injEq] at *
  omega

theorem keyMax_eq_right {a b : Int × Nat} (h : keyLe a b) :
    keyMax a b = b := by
  unfold keyMax
  rcases h with rfl | h
  · split_ifs <;> rfl
  · rw [if_pos h]

theorem keyLe_keyMax_left (a b : Int × Nat) : keyLe a (keyMax a b) := by
  unfold keyMax
  split_ifs with h
  · exact Or.inr h
  · exact keyLe_refl a

theorem keyLe_keyMax_right (a b : Int × Nat) : keyLe b (keyMax a b) := by
  unfold keyMax
  split_ifs with h
  · exact keyLe_refl b
  · exact keyLe_of_not_keyLt h

/-- The running maximum of a list belongs to the accumulator or the
list. -/
theorem foldl_keyMax_mem (L : List (Int × Nat)) :
    ∀ e : Int × Nat, L.foldl keyMax e = e ∨ L.foldl keyMax e ∈ L := by
  induction L with
  | nil => intro e; exact Or.inl rfl
  | cons a t ih =>
    intro e
    rcases ih (keyMax e a) with h | h
    · rw [List.foldl_cons, h]
      unfold keyMax
      split_ifs with hc
      · exact Or.inr (List.mem_cons_self a t)
      · exact Or.inl rfl
    · exact Or.inr (List.mem_cons_of_mem a h)

/-- The running maximum dominates the accumulator and every element. -/
theorem keyLe_foldl_keyMax (L : List (Int × Nat)) :
    ∀ e : Int × Nat, keyLe e (L.foldl keyMax e) ∧
      ∀ x ∈ L, keyLe x (L.foldl keyMax e) := by
  induction L with
  | nil => intro e; exact ⟨keyLe_refl e, by intro x hx; cases hx⟩
  | cons a t ih =>
    intro e
    obtain ⟨h1, h2⟩ := ih (keyMax e a)
    refine ⟨keyLe_trans (keyLe_keyMax_left e a) h1, ?_⟩
    intro x hx
    rcases List.mem_cons.mp hx with rfl | hx
    · exact keyLe_trans (keyLe_keyMax_right e x) h1
    · exact h2 x hx

/-- Folding over a list whose every element (and the accumulator) is
dominated by n computes the same maximum as restarting from n. -/
theorem foldl_keyMax_absorb (A B : List (Int × Nat)) (e n : Int × Nat)
    (he : keyLe e n) (hA : ∀ x ∈ A, keyLe x n) :
    (A ++ n :: B).foldl keyMax e = B.foldl keyMax n := by
  rw [List.foldl_append, List.foldl_cons]
  have hm : keyLe (A.foldl keyMax e) n := by
    rcases foldl_keyMax_mem A e with h | h
    · rw [h]; exact he
    · exact hA _ h
  rw [keyMax_eq_right hm]

/-! ## rb_first and walk characterisation -/

/-- A tree without a leftmost entry has no entries. -/
theorem rbFirst_eq_none_elems : ∀ t : WlTree, t.rbFirst = none →
    t.elems = [] := by
  intro t ht
  cases t with
  | leaf => rfl
  | node l ec pn r =>
    exfalso
    simp only [WlTree.rbFirst] at ht
    cases hl : l.rbFirst <;> rw [hl] at ht <;> simp at ht

/-- The leftmost entry belongs to the tree. -/
theorem rbFirst_mem : ∀ t : WlTree, ∀ k : Int × Nat, t.rbFirst = some k →
    k ∈ t.elems := by
  intro t
  induction t with
  | leaf => intro k hk; cases hk
  | node l ec pn r ihl ihr =>
    intro k hk
    simp only [WlTree.rbFirst] at hk
    rw [show (WlTree.node l ec pn r).elems
          = l.elems ++ (ec, pn) :: r.elems from rfl]
    cases hl : l.rbFirst with
    | some k0 =>
      rw [hl] at hk
      cases hk
      exact List.mem_append.mpr (Or.inl (ihl _ hl))
    | none =>
      rw [hl] at hk
      cases hk
      exact List.mem_append.mpr (Or.inr (List.mem_cons_self _ _))

/-- In a well-formed tree the leftmost entry is the minimum. -/
theorem rbFirst_min : ∀ t : WlTree, t.wf → ∀ k : Int × Nat,
    t.rbFirst = some k → ∀ x ∈ t.elems, keyLe k x := by
  intro t
  induction t with
  | leaf => intro _ k hk; cases hk
  | node l ec pn r ihl ihr =>
    intro hwf k hk x hx
    obtain ⟨hl, hr, hwl, hwr⟩ := hwf
    simp only [WlTree.rbFirst] at hk
    rw [show (WlTree.node l ec pn r).elems
          = l.elems ++ (ec, pn) :: r.elems from rfl] at hx
    cases hfl : l.rbFirst with
    | none =>
      rw [hfl] at hk
      cases hk
      have hlnil := rbFirst_eq_none_elems l hfl
      rw [hlnil] at hx
      simp only [List.nil_append, List.mem_cons] at hx
      rcases hx with rfl | hx
      · exact keyLe_refl _
      · exact keyLe_of_keyLt (hr x hx)
    | some k0 =>
      rw [hfl] at hk
      cases hk
      have hk0pn : keyLt k (ec, pn) := hl k (rbFirst_mem l k hfl)
      rcases List.mem_append.mp hx with hx | hx
      · exact ihl hwl k hfl x hx
      · rcases List.mem_cons.mp hx with rfl | hx
        · exact keyLe_of_keyLt hk0pn
        · exact keyLe_trans (keyLe_of_keyLt hk0pn)
            (keyLe_of_keyLt (hr x hx))

/-- The first component of the walk result is the running maximum of the
entries whose ec lies below max, seeded with the accumulator. -/
theorem wlWalk_fst (t : WlTree) (mx : Int) :
    ∀ (e : Int × Nat) (prev : Option (Int × Nat)), t.wf →
    (∀ k ∈ t.elems, keyLe e k) →
    (wlWalk t mx e prev).1
      = (t.elems.filter (fun k => decide (k.1 < mx))).foldl keyMax e := by
  induction t with
  | leaf => intro e prev _ _; rfl
  | node l ec pn r ihl ihr =>
    intro e prev hwf hle
    obtain ⟨hl, hr, hwl, hwr⟩ := hwf
    rw [show (WlTree.node l ec pn r).elems
          = l.elems ++ (ec, pn) :: r.elems from rfl] at hle ⊢
    simp only [wlWalk]
    rw [List.filter_append, List.filter_cons]
    split_ifs with hc hmid hmid
    · exfalso
      simp only [decide_eq_true_eq] at hmid
      omega
    · have hrnil : r.elems.filter (fun k => decide (k.1 < mx)) = [] := by
        rw [List.filter_eq_nil]
        intro x hx
        have hx2 := hr x hx
        simp only [keyLt] at hx2
        simp only [decide_eq_true_eq]
        omega
      rw [hrnil, List.append_nil]
      exact ihl e prev hwl
        (fun k hk => hle k (List.mem_append.mpr (Or.inl hk)))
    · have he : keyLe e (ec, pn) :=
        hle (ec, pn) (List.mem_append.mpr (Or.inr (List.mem_cons_self _ _)))
      have hA : ∀ x ∈ l.elems.filter (fun k => decide (k.1 < mx)),
          keyLe x (ec, pn) := fun x hx =>
        keyLe_of_keyLt (hl x (List.mem_of_mem_filter hx))
      rw [foldl_keyMax_absorb _ _ e (ec, pn) he hA]
      exact ihr (ec, pn) (some e) hwr
        (fun k hk => keyLe_of_keyLt (hr k hk))
    · exfalso
      simp only [decide_eq_true_eq] at hmid
      omega

/-! ## Theorems about find_wl_entry (claim C6) -/

/-- C6 (amended): for a non-empty well-formed free tree and a positive
diff, find_wl_entry returns the entry that is (ec, pnum)-lexicographically
greatest among those with ec strictly below min_ec + diff (so ties in ec
are broken towards the larger pnum) PROVIDED the fastmap anchor hold-back
does not apply, here hypothesised as fm_disabled; when a fastmap is still
to be written and the found entry could serve as an anchor PEB, the
previous walk candidate is returned instead (wl.c:300-306), and the
counterexample shows that candidate need not be the largest entry below
the bound. -/
theorem find_wl_entry_largest_below (cfg : FmCfg) (root : WlTree)
    (diff : Int) (first : Int × Nat) (hwf : root.wf)
    (hfirst : root.rbFirst = some first) (hdiff : 0 < diff)
    (hdis : cfg.fmDisabled = true) :
    ∃ m : Int × Nat, find_wl_entry cfg root diff = some m ∧
      m ∈ root.elems ∧ m.1 < first.1 + diff ∧
      ∀ k ∈ root.elems, k.1 < first.1 + diff → keyLe k m := by
  have hle := rbFirst_min root hwf first hfirst
  have hwalk := wlWalk_fst root (first.1 + diff) first none hwf hle
  have hfind : ∀ (e : Int × Nat) (prev : Option (Int × Nat)),
      wlWalk root (first.1 + diff) first none = (e, prev) →
      find_wl_entry cfg root diff = some e := by
    intro e prev hw
    unfold find_wl_entry
    rw [hfirst]
    show (match wlWalk root (first.1 + diff) first none with
      | (e, some p) =>
        if ¬ cfg.fmDisabled ∧ ¬ cfg.fmPresent ∧ e.2 < cfg.fmMaxStart
        then some p else some e
      | (e, none) => some e) = some e
    rw [hw]
    cases prev with
    | some p =>
      show (if ¬ cfg.fmDisabled = true ∧ ¬ cfg.fmPresent = true ∧
          e.2 < cfg.fmMaxStart then some p else some e) = some e
      rw [if_neg (by simp [hdis])]
    | none => rfl
  rcases hw : wlWalk root (first.1 + diff) first none with ⟨e, prev⟩
  have he : e = (root.elems.filter
      (fun k => decide (k.1 < first.1 + diff))).foldl keyMax first := by
    rw [← hwalk, hw]
  refine ⟨e, hfind e prev hw, ?_, ?_, ?_⟩
  · rw [he]
    rcases foldl_keyMax_mem
        (root.elems.filter (fun k => decide (k.1 < first.1 + diff)))
        first with h | h
    · rw [h]; exact rbFirst_mem root first hfirst
    · exact List.mem_of_mem_filter h
  · rw [he]
    rcases foldl_keyMax_mem
        (root.elems.filter (fun k => decide (k.1 < first.1 + diff)))
        first with h | h
    · rw [h]; omega
    · have h2 := (List.mem_filter.mp h).2
      simp only [decide_eq_true_eq] at h2
      exact h2
  · intro k hk hklt
    rw [he]
    have hkf : k ∈ root.elems.filter
        (fun k => decide (k.1 < first.1 + diff)) :=
      List.mem_filter.mpr ⟨hk, by simp [hklt]⟩
    exact (keyLe_foldl_keyMax _ first).2 k hkf

/-- The two-entry free tree for the C6 counterexample: the minimum entry
(ec 0, pnum 7) at the root with (ec 5, pnum 0) as its right child. -/
def fmCexTree : WlTree := .node .leaf 0 7 (.node .leaf 5 0 .leaf)

/-- C6 counterexample: with no fastmap written yet and fastmap not
disabled (the state of any freshly attached fastmap-capable device), the
anchor hold-back of wl.c:300-306 makes find_wl_entry return the previous
candidate (0, 7) even though (5, 0) is in the tree with ec below
min + diff and is strictly larger, contradicting the claim that the entry
with the largest ec strictly below min + diff is returned.  fmMaxStart is
1 here; the same run happens for every positive UBI_FM_MAX_START since
the held-back entry has pnum 0. -/
theorem find_wl_entry_anchor_counterexample :
    fmCexTree.wf ∧
    find_wl_entry ⟨false, false, 1⟩ fmCexTree 10 = some (0, 7) ∧
    (5, 0) ∈ fmCexTree.elems ∧ ((5 : Int) < 0 + 10) ∧
    keyLt (0, 7) (5, 0) := by
  decide

/-- C6 witness: with fastmap disabled the same tree yields the true
largest entry below the bound, (5, 0). -/
theorem find_wl_entry_largest_below_witness :
    ∃ m : Int × Nat, find_wl_entry ⟨true, false, 1⟩ fmCexTree 10 = some m ∧
      m ∈ fmCexTree.elems ∧ m.1 < ((0 : Int), (7 : Nat)).1 + 10 ∧
      ∀ k ∈ fmCexTree.elems, k.1 < ((0 : Int), (7 : Nat)).1 + 10 →
        keyLe k m :=
  find_wl_entry_largest_below ⟨true, false, 1⟩ fmCexTree 10 (0, 7)
    (by decide) (by decide) (by decide) rfl
